import Mathlib

/-!
# Arabica: namespace-aware attributes and the UTF-16LE / UCS-2 conversion facet

A shallow embedding of

* `include/DOM/Simple/AttrNSImpl.hpp` : the constructor, `setPrefix`, and the
  accessors of `AttrNSImpl<stringT, string_adaptorT>`;
* `Utils/utf16leucs2codecvt.cpp` : `do_out`, `do_in`, `do_unshift`, `do_length`.

Strings are lists of characters.  A `stringT const*` into the document's string
pool is represented by the content it points at, because every observer in
`AttrNSImpl` dereferences the pointer.  A C++ exception thrown by a constructor
is an `Except.error` (no object exists afterwards); a member function returns
its outcome together with the object's state when it returns or throws.
-/

set_option autoImplicit false

namespace Arabica

/-- The string type parameter `stringT`, as the sequence of its characters. -/
abbrev stringT := List Char

namespace string_adaptorT

/-- `string_adaptorT::construct_from_utf8` on a literal. -/
def construct_from_utf8 (s : String) : stringT := s.data

/-- `string_adaptorT::empty`. -/
def empty (s : stringT) : Bool := s.isEmpty

/-- Search loop of `find`: `i` is the index of the head of `str` in the whole string. -/
def findFrom (what : stringT) : stringT → Nat → Option Nat
  | [], i => if what.isPrefixOf [] then some i else none
  | c :: t, i => if what.isPrefixOf (c :: t) then some i else findFrom what t (i + 1)

/-- `string_adaptorT::find(str, what)`: index of the first occurrence of `what` in
`str`; `none` stands for `string_adaptorT::npos()`. -/
def find (str what : stringT) : Option Nat := findFrom what str 0

/-- `string_adaptorT::substr(str, pos, n)`; `n = none` is the two-argument form
`substr(str, pos)`, which runs to the end of the string. -/
def substr (str : stringT) (pos : Nat) (n : Option Nat) : stringT :=
  match n with
  | none => str.drop pos
  | some k => (str.drop pos).take k

/-- `string_adaptorT::append(str, a)`, returning the extended string. -/
def append (str a : stringT) : stringT := str ++ a

end string_adaptorT

namespace DOM

/-- The exception codes of `DOM::DOMException`. -/
inductive DOMException where
  | INDEX_SIZE_ERR
  | DOMSTRING_SIZE_ERR
  | HIERARCHY_REQUEST_ERR
  | WRONG_DOCUMENT_ERR
  | INVALID_CHARACTER_ERR
  | NO_DATA_ALLOWED_ERR
  | NO_MODIFICATION_ALLOWED_ERR
  | NOT_FOUND_ERR
  | NOT_SUPPORTED_ERR
  | INUSE_ATTRIBUTE_ERR
  | INVALID_STATE_ERR
  | SYNTAX_ERR
  | INVALID_MODIFICATION_ERR
  | NAMESPACE_ERR
  | INVALID_ACCESS_ERR
  deriving DecidableEq, Repr

/-- The node kinds of `DOM::Node<stringT>::Type`. -/
inductive NodeType where
  | ELEMENT_NODE
  | ATTRIBUTE_NODE
  | TEXT_NODE
  | CDATA_SECTION_NODE
  | ENTITY_REFERENCE_NODE
  | ENTITY_NODE
  | PROCESSING_INSTRUCTION_NODE
  | COMMENT_NODE
  | DOCUMENT_NODE
  | DOCUMENT_TYPE_NODE
  | DOCUMENT_FRAGMENT_NODE
  | NOTATION_NODE
  deriving DecidableEq, Repr

end DOM

namespace SimpleDOM

open DOM

/-- Modelled from the spec: `DocumentImpl::empty_string()` is declared outside these
sources; it is the pool's canonical empty string, "used to represent no prefix". -/
def empty_string : stringT := []

/-- Modelled from the spec: `DocumentImpl::stringPool` is declared outside these
sources; `intern(content)` returns the canonical handle for `content`, and a handle
is represented here by the content it denotes. -/
def stringPool (s : stringT) : stringT := s

/-- The signature of `checkPrefixAndNamespace<stringT, string_adaptorT>`:
`(hasPrefix, prefix, hasNamespaceURI, namespaceURI, nodeType)` to either a thrown
`DOMException` or the pair `(hasNamespaceURI, namespaceURI)` it maps them to. -/
abbrev Validator :=
  Bool → stringT → Bool → stringT → NodeType → Except DOMException (Bool × stringT)

/-- The members of `AttrNSImpl` that the constructor and `setPrefix` touch:
`name_` is inherited from `AttrImpl`, the other four are declared in `AttrNSImpl`. -/
structure AttrNSImpl where
  name_ : stringT
  namespaceURI_ : stringT
  prefix_ : stringT
  localName_ : stringT
  hasNamespaceURI_ : Bool
  deriving DecidableEq, Repr

namespace AttrNSImpl

open string_adaptorT

/-- The constructor `AttrNSImpl::AttrNSImpl(ownerDoc, namespaceURI, hasNamespaceURI,
qualifiedName)`.  The base-class initialiser `AttrImpl(ownerDoc, qualifiedName)`
sets `name_` to the qualified name.  `check` is `checkPrefixAndNamespace`. -/
def ctor (check : Validator) (namespaceURI : stringT) (hasNamespaceURI : Bool)
    (qualifiedName : stringT) : Except DOMException AttrNSImpl :=
  let index := find qualifiedName (construct_from_utf8 ":")
  -- (hasPrefix, prefix_, localName_, prefix_for_checking)
  let parts : Bool × stringT × stringT × stringT :=
    match index with
    | none =>
      let localName_ := stringPool qualifiedName
      if localName_ = construct_from_utf8 "xmlns" then
        (true, empty_string, localName_, localName_)
      else
        (false, empty_string, localName_, empty_string)
    | some i =>
      let prefix_ := stringPool (substr qualifiedName 0 (some i))
      let localName_ := stringPool (substr qualifiedName (i + 1) none)
      (true, prefix_, localName_, prefix_)
  match check parts.1 parts.2.2.2 hasNamespaceURI namespaceURI NodeType.ATTRIBUTE_NODE with
  | .error e => .error e
  | .ok mappedURI =>
    .ok { name_ := stringPool qualifiedName
          namespaceURI_ := stringPool mappedURI.2
          prefix_ := parts.2.1
          localName_ := parts.2.2.1
          hasNamespaceURI_ := mappedURI.1 }

/-- `AttrNSImpl::getNamespaceURI`. -/
def getNamespaceURI (self : AttrNSImpl) : stringT := self.namespaceURI_

/-- `AttrNSImpl::getPrefix`. -/
def getPrefix (self : AttrNSImpl) : stringT := self.prefix_

/-- `AttrNSImpl::getLocalName`. -/
def getLocalName (self : AttrNSImpl) : stringT := self.localName_

/-- `AttrImpl::getNodeName` / `getName`: the inherited `name_`. -/
def getName (self : AttrNSImpl) : stringT := self.name_

/-- `AttrNSImpl::hasNamespaceURI`. -/
def hasNamespaceURI (self : AttrNSImpl) : Bool := self.hasNamespaceURI_

/-- `AttrNSImpl::hasPrefix`. -/
def hasPrefix (self : AttrNSImpl) : Bool := !(self.prefix_ == empty_string)

/-- `AttrNSImpl::setPrefix(prefix)`: the outcome (normal return or the exception
thrown) paired with the object's state at that point. -/
def setPrefix (check : Validator) (self : AttrNSImpl) (newPrefix : stringT) :
    Except DOMException Unit × AttrNSImpl :=
  if self.hasNamespaceURI_ = false then
    (.error DOMException.NAMESPACE_ERR, self)
  else if empty newPrefix then
    (.ok (), { self with name_ := self.localName_, prefix_ := empty_string })
  else
    match check true newPrefix true self.namespaceURI_ NodeType.ATTRIBUTE_NODE with
    | .error e => (.error e, self)
    | .ok _ =>
      let newName := append (append newPrefix (construct_from_utf8 ":")) self.localName_
      (.ok (), { self with prefix_ := stringPool newPrefix, name_ := stringPool newName })

/-- A caller issuing `setPrefix` calls one after the other on the same attribute,
carrying on after a call that throws. -/
def setPrefixes (check : Validator) (self : AttrNSImpl) (newPrefixes : List stringT) :
    AttrNSImpl :=
  newPrefixes.foldl (fun a p => (setPrefix check a p).2) self

end AttrNSImpl

/-- Modelled from the spec: the fixed XML namespace URI (the constant itself is
declared in `DOM/Simple/Helpers.hpp`, outside these sources). -/
def xmlURI : stringT := string_adaptorT.construct_from_utf8 "http://www.w3.org/XML/1998/namespace"

/-- Modelled from the spec: the fixed XMLNS namespace URI (declared in
`DOM/Simple/Helpers.hpp`, outside these sources). -/
def xmlnsURI : stringT := string_adaptorT.construct_from_utf8 "http://www.w3.org/2000/xmlns/"

/-- Modelled from the spec: `checkPrefixAndNamespace` is defined in
`DOM/Simple/Helpers.hpp`, outside these sources.  This is `validate(hasPrefix,
prefixOrLocal, explicitURIGiven, namespaceURI, nodeKind)` of the specification, one
branch per rule, in the order the rules are listed. -/
def checkPrefixAndNamespace : Validator :=
  fun hasPrefix prefixOrLocal hasNamespaceURI namespaceURI nodeType =>
    let isXmlns : Bool :=
      (hasPrefix || nodeType == NodeType.ATTRIBUTE_NODE) &&
        prefixOrLocal == string_adaptorT.construct_from_utf8 "xmlns"
    -- fails if a non-empty prefix is present but no namespace URI is supplied
    if hasPrefix && !prefixOrLocal.isEmpty && !hasNamespaceURI then
      .error DOMException.NAMESPACE_ERR
    -- fails if prefix "xml" is bound to any URI other than the fixed XML namespace URI
    else if hasPrefix && prefixOrLocal == string_adaptorT.construct_from_utf8 "xml"
        && namespaceURI != xmlURI then
      .error DOMException.NAMESPACE_ERR
    -- fails if prefix "xmlns" (for attributes, bare local name "xmlns") is bound to
    -- any URI other than the fixed XMLNS namespace URI
    else if isXmlns && namespaceURI != xmlnsURI then
      .error DOMException.NAMESPACE_ERR
    -- fails symmetrically if that fixed URI is bound under any other prefix
    else if hasPrefix && hasNamespaceURI && namespaceURI == xmlnsURI && !isXmlns then
      .error DOMException.NAMESPACE_ERR
    -- otherwise succeeds: whether a namespace applies, and its URI
    else
      .ok (hasNamespaceURI, namespaceURI)

end SimpleDOM

end Arabica

namespace std

namespace codecvt_base

/-- The conversion outcomes of `std::codecvt_base::result`; the standard's `partial`
is spelled `partial_` here. -/
inductive result where
  | ok
  | partial_
  | error
  | noconv
  deriving DecidableEq, Repr

end codecvt_base

/-- Modelled from the spec: `std::mbstate_t` is a library type; the specification's
CodecState "carries a pending partially-consumed byte across conversion calls". -/
structure mbstate_t where
  pending : Option Nat
  deriving DecidableEq, Repr

end std

namespace ArabicaInternal

open std.codecvt_base

/-- What a conversion call hands back: the `result`, how far `from_next` is past
`from`, and the elements stored in `[to, to_next)`. -/
structure Conversion where
  res : result
  from_next : Nat
  written : List Nat
  deriving DecidableEq, Repr

/-- Modelled from the spec: `ArabicaInternal::ucs2_2_utf16` is defined in
`impl/ucs2_utf16`, outside these sources.  `encode(codeUnits) -> bytes`: one byte
pair per code unit, little-endian when `be` is false, for as long as the output
range `[to, to_limit)` of `to_cap` bytes has room for a pair; `ok` when every code
unit has been consumed. -/
def ucs2_2_utf16 (be : Bool) : List Nat → Nat → Conversion
  | [], _ => ⟨result.ok, 0, []⟩
  | ch :: rest, to_cap =>
    if to_cap < 2 then ⟨result.partial_, 0, []⟩
    else
      let lb := ch % 256
      let hb := (ch / 256) % 256
      let r := ucs2_2_utf16 be rest (to_cap - 2)
      ⟨r.res, r.from_next + 1, (if be then [hb, lb] else [lb, hb]) ++ r.written⟩

/-- Modelled from the spec: `ArabicaInternal::utf16_2_ucs2` is defined in
`impl/ucs2_utf16`, outside these sources.  `decode(bytes)`: "consumes little-endian
byte pairs into 16-bit code units; reports partial (zero units written ...) when
fewer than 2 bytes remain"; `to_cap` is the room in `[to, to_limit)`. -/
def utf16_2_ucs2 (be : Bool) : List Nat → Nat → Conversion
  | [], _ => ⟨result.ok, 0, []⟩
  | [_], _ => ⟨result.partial_, 0, []⟩
  | b1 :: b2 :: rest, to_cap =>
    if to_cap = 0 then ⟨result.partial_, 0, []⟩
    else
      let r := utf16_2_ucs2 be rest (to_cap - 1)
      ⟨r.res, r.from_next + 2,
        (if be then (b1 % 256) * 256 + b2 % 256 else (b2 % 256) * 256 + b1 % 256) :: r.written⟩

end ArabicaInternal

namespace utf16leucs2codecvt

open std std.codecvt_base ArabicaInternal

/-- `utf16leucs2codecvt::do_out`: `from_` is the content of `[from, from_end)`,
`to_cap` is `to_limit - to`.  The state parameter is unnamed and never touched, so
it is handed back as it came. -/
def do_out (state : mbstate_t) (from_ : List Nat) (to_cap : Nat) : mbstate_t × Conversion :=
  (state, ucs2_2_utf16 false from_ to_cap)

/-- `utf16leucs2codecvt::do_in`: `from_` is the content of `[from, from_end)`,
`to_cap` is `to_limit - to`.  The state parameter is unnamed and never touched. -/
def do_in (state : mbstate_t) (from_ : List Nat) (to_cap : Nat) : mbstate_t × Conversion :=
  (state, utf16_2_ucs2 false from_ to_cap)

/-- `utf16leucs2codecvt::do_unshift`: `to_next = to` (nothing written), `noconv`. -/
def do_unshift (state : mbstate_t) (_to_cap : Nat) : mbstate_t × result × List Nat :=
  (state, result.noconv, [])

/-- Conversion of an integer value to the 32-bit `int` that `std::max<int>` takes. -/
def toInt (x : Int) : Int := (x + 2 ^ 31) % 2 ^ 32 - 2 ^ 31

/-- `utf16leucs2codecvt::do_length`: `std::max<int>((end-from), max/2)`, where
`from_` is the content of `[from, end)` and `max_` is the `size_t` argument. -/
def do_length (_state : mbstate_t) (from_ : List Nat) (max_ : Nat) : Int :=
  max (toInt (from_.length : Int)) (toInt ((max_ / 2 : Nat) : Int))

end utf16leucs2codecvt

/-! ## Lemmas on the string operations -/

namespace Arabica

namespace string_adaptorT

theorem findFrom_single_of_not_mem (c : Char) (s : stringT) (i : Nat) (h : c ∉ s) :
    findFrom [c] s i = none := by
  induction s generalizing i with
  | nil => simp [findFrom, List.isPrefixOf]
  | cons d t ih =>
    have hd : c ≠ d := fun e => h (e ▸ List.mem_cons_self _ _)
    have ht : c ∉ t := fun m => h (List.mem_cons_of_mem _ m)
    simp [findFrom, List.isPrefixOf, hd, ih _ ht]

theorem findFrom_single_first (c : Char) (pre post : stringT) (i : Nat) (h : c ∉ pre) :
    findFrom [c] (pre ++ c :: post) i = some (i + pre.length) := by
  induction pre generalizing i with
  | nil => simp [findFrom, List.isPrefixOf]
  | cons d t ih =>
    have hd : c ≠ d := fun e => h (e ▸ List.mem_cons_self _ _)
    have ht : c ∉ t := fun m => h (List.mem_cons_of_mem _ m)
    simp [findFrom, List.isPrefixOf, hd, ih _ ht]
    omega

theorem find_colon_of_not_mem (s : stringT) (h : ':' ∉ s) :
    find s (construct_from_utf8 ":") = none :=
  findFrom_single_of_not_mem ':' s 0 h

theorem find_colon_first (pre post : stringT) (h : ':' ∉ pre) :
    find (pre ++ ':' :: post) (construct_from_utf8 ":") = some pre.length := by
  have := findFrom_single_first ':' pre post 0 h
  simpa [find, construct_from_utf8] using this

theorem append_colon (p l : stringT) :
    append (append p (construct_from_utf8 ":")) l = p ++ ':' :: l := by
  simp [append, construct_from_utf8]

/-- A string containing `c` splits at the first `c`. -/
theorem split_at_first (c : Char) (s : stringT) (h : c ∈ s) :
    ∃ pre post, c ∉ pre ∧ s = pre ++ c :: post := by
  induction s with
  | nil => simp at h
  | cons d t ih =>
    by_cases hd : c = d
    · exact ⟨[], t, by simp, by simp [hd]⟩
    · have ht : c ∈ t := by
        rcases List.mem_cons.mp h with e | m
        · exact absurd e hd
        · exact m
      obtain ⟨pre, post, hp, hs⟩ := ih ht
      refine ⟨d :: pre, post, ?_, by simp [hs]⟩
      intro m
      rcases List.mem_cons.mp m with e | m
      · exact hd e
      · exact hp m

end string_adaptorT

namespace SimpleDOM

namespace AttrNSImpl

open DOM string_adaptorT

/-- The constructor on a name without `:` other than `xmlns`. -/
theorem ctor_of_plain (check : Validator) (ns : stringT) (hasNS : Bool) (q : stringT)
    (hc : ':' ∉ q) (hx : q ≠ construct_from_utf8 "xmlns") :
    ctor check ns hasNS q =
      (check false [] hasNS ns NodeType.ATTRIBUTE_NODE).map
        (fun m => ⟨q, m.2, [], q, m.1⟩) := by
  unfold ctor
  rw [find_colon_of_not_mem q hc]
  simp only [stringPool, empty_string, if_neg hx]
  cases check false [] hasNS ns NodeType.ATTRIBUTE_NODE <;> rfl

/-- The constructor on the name `xmlns`. -/
theorem ctor_of_xmlns (check : Validator) (ns : stringT) (hasNS : Bool) :
    ctor check ns hasNS (construct_from_utf8 "xmlns") =
      (check true (construct_from_utf8 "xmlns") hasNS ns NodeType.ATTRIBUTE_NODE).map
        (fun m => ⟨construct_from_utf8 "xmlns", m.2, [], construct_from_utf8 "xmlns", m.1⟩) := by
  unfold ctor
  rw [find_colon_of_not_mem _ (by decide)]
  simp only [stringPool, empty_string, if_true]
  cases check true (construct_from_utf8 "xmlns") hasNS ns NodeType.ATTRIBUTE_NODE <;> rfl

/-- The constructor on a name split at its first `:`. -/
theorem ctor_of_colon (check : Validator) (ns : stringT) (hasNS : Bool) (pre post : stringT)
    (hc : ':' ∉ pre) :
    ctor check ns hasNS (pre ++ ':' :: post) =
      (check true pre hasNS ns NodeType.ATTRIBUTE_NODE).map
        (fun m => ⟨pre ++ ':' :: post, m.2, pre, post, m.1⟩) := by
  have h1 : substr (pre ++ ':' :: post) 0 (some pre.length) = pre := by
    simp [substr]
  have h2 : substr (pre ++ ':' :: post) (pre.length + 1) none = post := by
    have : ∀ l : stringT, List.drop (l.length + 1) (l ++ ':' :: post) = post := by
      intro l
      induction l with
      | nil => rfl
      | cons d t ih => simp [ih]
    exact this pre
  unfold ctor
  rw [find_colon_first pre post hc]
  simp only [stringPool, h1, h2]
  cases check true pre hasNS ns NodeType.ATTRIBUTE_NODE <;> rfl

end AttrNSImpl

end SimpleDOM

end Arabica

/-! ## The name-composition invariant -/

namespace Arabica

namespace SimpleDOM

namespace AttrNSImpl

open DOM string_adaptorT

/-- One `setPrefix` call, thrown or not, keeps the name composed of prefix and local
name and keeps the local name. -/
theorem setPrefix_keeps_composition (check : Validator) (a : AttrNSImpl) (p : stringT)
    (h : a.name_ = if a.prefix_ = [] then a.localName_ else a.prefix_ ++ ':' :: a.localName_) :
    ((a.setPrefix check p).2.name_ =
      if (a.setPrefix check p).2.prefix_ = [] then (a.setPrefix check p).2.localName_
      else (a.setPrefix check p).2.prefix_ ++ ':' :: (a.setPrefix check p).2.localName_) ∧
    (a.setPrefix check p).2.localName_ = a.localName_ := by
  unfold setPrefix
  by_cases hf : a.hasNamespaceURI_ = false
  · rw [if_pos hf]
    exact ⟨h, rfl⟩
  · rw [if_neg hf]
    cases p with
    | nil => simp [empty, empty_string]
    | cons c t =>
      simp only [empty, List.isEmpty_cons, Bool.false_eq_true, if_false]
      cases check true (c :: t) true a.namespaceURI_ NodeType.ATTRIBUTE_NODE with
      | error e => exact ⟨h, rfl⟩
      | ok m => simp [stringPool, append, construct_from_utf8]

/-- Any run of `setPrefix` calls keeps the composition and the local name. -/
theorem setPrefixes_keeps_composition (check : Validator) (ps : List stringT) (a : AttrNSImpl)
    (h : a.name_ = if a.prefix_ = [] then a.localName_ else a.prefix_ ++ ':' :: a.localName_) :
    ((a.setPrefixes check ps).name_ =
      if (a.setPrefixes check ps).prefix_ = [] then (a.setPrefixes check ps).localName_
      else (a.setPrefixes check ps).prefix_ ++ ':' :: (a.setPrefixes check ps).localName_) ∧
    (a.setPrefixes check ps).localName_ = a.localName_ := by
  induction ps generalizing a with
  | nil => exact ⟨h, rfl⟩
  | cons p ps ih =>
    have hstep := setPrefix_keeps_composition check a p h
    have hrest := ih (a.setPrefix check p).2 hstep.1
    have hfold : a.setPrefixes check (p :: ps) = (a.setPrefix check p).2.setPrefixes check ps := by
      simp [setPrefixes]
    rw [hfold]
    exact ⟨hrest.1, hrest.2.trans hstep.2⟩

/-- What the constructor builds from a name not starting with `:` is composed. -/
theorem ctor_composition (check : Validator) (ns : stringT) (hasNS : Bool) (q : stringT)
    (a : AttrNSImpl) (hq : q.head? ≠ some ':') (h : ctor check ns hasNS q = .ok a) :
    a.name_ = if a.prefix_ = [] then a.localName_ else a.prefix_ ++ ':' :: a.localName_ := by
  by_cases hm : ':' ∈ q
  · obtain ⟨pre, post, hpre, hs⟩ := split_at_first ':' q hm
    subst hs
    have hne : pre ≠ [] := by
      intro e
      subst e
      exact hq rfl
    rw [ctor_of_colon check ns hasNS pre post hpre] at h
    cases hc : check true pre hasNS ns NodeType.ATTRIBUTE_NODE with
    | error e => rw [hc] at h; cases h
    | ok m =>
      rw [hc] at h
      cases h
      simp [hne]
  · by_cases hx : q = construct_from_utf8 "xmlns"
    · subst hx
      rw [ctor_of_xmlns] at h
      cases hc : check true (construct_from_utf8 "xmlns") hasNS ns NodeType.ATTRIBUTE_NODE with
      | error e => rw [hc] at h; cases h
      | ok m =>
        rw [hc] at h
        cases h
        rfl
    · rw [ctor_of_plain check ns hasNS q hm hx] at h
      cases hc : check false [] hasNS ns NodeType.ATTRIBUTE_NODE with
      | error e => rw [hc] at h; cases h
      | ok m =>
        rw [hc] at h
        cases h
        rfl

end AttrNSImpl

end SimpleDOM

end Arabica

/-! ## `AttrNSImpl`: the constructor and `setPrefix` -/

namespace Arabica

namespace SimpleDOM

namespace AttrNSImpl

open DOM string_adaptorT

/-- C1: on an attribute whose `hasNamespaceURI` flag is false, `setPrefix` throws
`NAMESPACE_ERR` for every new prefix, empty or not, whatever the validator would say,
and the attribute's name, prefix, local name, namespace URI and flag are what they
were before the call. -/
theorem setPrefix_without_namespace (check : Validator) (a : AttrNSImpl)
    (newPrefix : stringT) (h : a.hasNamespaceURI = false) :
    (a.setPrefix check newPrefix).1 = .error DOMException.NAMESPACE_ERR ∧
    (a.setPrefix check newPrefix).2 = a ∧
    (a.setPrefix check newPrefix).2.getName = a.getName ∧
    (a.setPrefix check newPrefix).2.getPrefix = a.getPrefix ∧
    (a.setPrefix check newPrefix).2.getLocalName = a.getLocalName ∧
    (a.setPrefix check newPrefix).2.getNamespaceURI = a.getNamespaceURI ∧
    (a.setPrefix check newPrefix).2.hasNamespaceURI = a.hasNamespaceURI := by
  have hf : a.hasNamespaceURI_ = false := h
  simp [setPrefix, hf]

/-- C1 at work: an attribute `id` without namespace, asked for the prefix `p` and for
the empty prefix. -/
theorem setPrefix_without_namespace_witness :
    (AttrNSImpl.mk "id".data [] [] "id".data false).hasNamespaceURI = false ∧
    ((AttrNSImpl.mk "id".data [] [] "id".data false).setPrefix
        checkPrefixAndNamespace "p".data).1 = .error DOMException.NAMESPACE_ERR ∧
    ((AttrNSImpl.mk "id".data [] [] "id".data false).setPrefix
        checkPrefixAndNamespace "p".data).2 = AttrNSImpl.mk "id".data [] [] "id".data false :=
  ⟨rfl,
   (setPrefix_without_namespace checkPrefixAndNamespace
      (AttrNSImpl.mk "id".data [] [] "id".data false) "p".data rfl).1,
   (setPrefix_without_namespace checkPrefixAndNamespace
      (AttrNSImpl.mk "id".data [] [] "id".data false) "p".data rfl).2.1⟩

/-- C2: on an attribute that has a namespace URI, `setPrefix` with a non-empty prefix
`p` that the validator accepts for that URI returns normally; afterwards `getPrefix`
is `p`, the name is `p` followed by `:` and the previous local name, and the local
name, the namespace URI and the `hasNamespaceURI` flag are unchanged. -/
theorem setPrefix_accepted (check : Validator) (a : AttrNSImpl) (p : stringT)
    (m : Bool × stringT) (hns : a.hasNamespaceURI = true) (hp : p ≠ [])
    (hok : check true p true a.getNamespaceURI NodeType.ATTRIBUTE_NODE = .ok m) :
    (a.setPrefix check p).1 = .ok () ∧
    (a.setPrefix check p).2.getPrefix = p ∧
    (a.setPrefix check p).2.getName = p ++ ':' :: a.getLocalName ∧
    (a.setPrefix check p).2.getLocalName = a.getLocalName ∧
    (a.setPrefix check p).2.getNamespaceURI = a.getNamespaceURI ∧
    (a.setPrefix check p).2.hasNamespaceURI = a.hasNamespaceURI := by
  have hf : a.hasNamespaceURI_ = true := hns
  have he : empty p = false := by
    cases p with
    | nil => exact absurd rfl hp
    | cons c t => rfl
  have hk : check true p true a.namespaceURI_ NodeType.ATTRIBUTE_NODE = .ok m := hok
  simp [setPrefix, hf, he, hk, getPrefix, getName, getLocalName, getNamespaceURI,
    hasNamespaceURI, stringPool, append, construct_from_utf8]

/-- C2 at work: `a:id` in namespace `urn:x` is given the prefix `b`. -/
theorem setPrefix_accepted_witness :
    ((AttrNSImpl.mk "a:id".data "urn:x".data "a".data "id".data true).setPrefix
        checkPrefixAndNamespace "b".data).1 = .ok () ∧
    ((AttrNSImpl.mk "a:id".data "urn:x".data "a".data "id".data true).setPrefix
        checkPrefixAndNamespace "b".data).2.getName = "b:id".data :=
  ⟨(setPrefix_accepted checkPrefixAndNamespace
      (AttrNSImpl.mk "a:id".data "urn:x".data "a".data "id".data true) "b".data
      (true, "urn:x".data) rfl (by decide) rfl).1,
   (setPrefix_accepted checkPrefixAndNamespace
      (AttrNSImpl.mk "a:id".data "urn:x".data "a".data "id".data true) "b".data
      (true, "urn:x".data) rfl (by decide) rfl).2.2.1⟩

/-- C3: when the constructor accepts a qualified name, a name without `:` gives the
empty prefix and the whole name as local name; a name with a `:` gives the text before
its first `:` as prefix and everything after that first `:` as local name (later colons
stay in the local name), so prefix, `:` and local name put together are the qualified
name again. -/
theorem ctor_split (check : Validator) (ns : stringT) (hasNS : Bool) (q : stringT)
    (a : AttrNSImpl) (h : ctor check ns hasNS q = .ok a) :
    (':' ∉ q → a.getPrefix = [] ∧ a.getLocalName = q) ∧
    (∀ pre post : stringT, ':' ∉ pre → q = pre ++ ':' :: post →
        a.getPrefix = pre ∧ a.getLocalName = post) ∧
    (':' ∈ q → a.getPrefix ++ ':' :: a.getLocalName = q) := by
  have key : ∀ pre post : stringT, ':' ∉ pre → q = pre ++ ':' :: post →
      a.getPrefix = pre ∧ a.getLocalName = post := by
    intro pre post hpre hq
    subst hq
    rw [ctor_of_colon check ns hasNS pre post hpre] at h
    cases hc : check true pre hasNS ns NodeType.ATTRIBUTE_NODE with
    | error e => rw [hc] at h; cases h
    | ok m =>
      rw [hc] at h
      cases h
      exact ⟨rfl, rfl⟩
  refine ⟨?_, key, ?_⟩
  · intro hq
    by_cases hx : q = construct_from_utf8 "xmlns"
    · subst hx
      rw [ctor_of_xmlns] at h
      cases hc : check true (construct_from_utf8 "xmlns") hasNS ns NodeType.ATTRIBUTE_NODE with
      | error e => rw [hc] at h; cases h
      | ok m =>
        rw [hc] at h
        cases h
        exact ⟨rfl, rfl⟩
    · rw [ctor_of_plain check ns hasNS q hq hx] at h
      cases hc : check false [] hasNS ns NodeType.ATTRIBUTE_NODE with
      | error e => rw [hc] at h; cases h
      | ok m =>
        rw [hc] at h
        cases h
        exact ⟨rfl, rfl⟩
  · intro hq
    obtain ⟨pre, post, hpre, hs⟩ := split_at_first ':' q hq
    obtain ⟨h1, h2⟩ := key pre post hpre hs
    rw [h1, h2, hs]

/-- C3 at work: `a:b:c` splits into prefix `a` and local name `b:c`. -/
theorem ctor_split_witness :
    ctor checkPrefixAndNamespace "urn:x".data true "a:b:c".data =
        .ok (AttrNSImpl.mk "a:b:c".data "urn:x".data "a".data "b:c".data true) ∧
    (AttrNSImpl.mk "a:b:c".data "urn:x".data "a".data "b:c".data true).getPrefix = "a".data ∧
    (AttrNSImpl.mk "a:b:c".data "urn:x".data "a".data "b:c".data true).getLocalName
        = "b:c".data :=
  ⟨rfl,
   (ctor_split checkPrefixAndNamespace "urn:x".data true "a:b:c".data
      (AttrNSImpl.mk "a:b:c".data "urn:x".data "a".data "b:c".data true) rfl).2.1
      "a".data "b:c".data (by decide) rfl⟩

/-- C4: given the colon-less name `xmlns`, the constructor calls the validator with
`hasPrefix = true` and `xmlns` as the prefix to check, yet what it builds has the empty
prefix (`getPrefix` empty, `hasPrefix` false) and local name `xmlns`; given any other
colon-less name it calls the validator with `hasPrefix = false` and the empty prefix. -/
theorem ctor_xmlns_validation (check : Validator) (ns : stringT) (hasNS : Bool) :
    ctor check ns hasNS (construct_from_utf8 "xmlns") =
      (check true (construct_from_utf8 "xmlns") hasNS ns NodeType.ATTRIBUTE_NODE).map
        (fun m => ⟨construct_from_utf8 "xmlns", m.2, [], construct_from_utf8 "xmlns", m.1⟩) ∧
    (∀ a : AttrNSImpl, ctor check ns hasNS (construct_from_utf8 "xmlns") = .ok a →
      a.getPrefix = [] ∧ a.hasPrefix = false ∧
      a.getLocalName = construct_from_utf8 "xmlns") ∧
    (∀ q : stringT, ':' ∉ q → q ≠ construct_from_utf8 "xmlns" →
      ctor check ns hasNS q =
        (check false [] hasNS ns NodeType.ATTRIBUTE_NODE).map
          (fun m => ⟨q, m.2, [], q, m.1⟩)) := by
  refine ⟨ctor_of_xmlns check ns hasNS, ?_, fun q hq hx => ctor_of_plain check ns hasNS q hq hx⟩
  intro a h
  rw [ctor_of_xmlns] at h
  cases hc : check true (construct_from_utf8 "xmlns") hasNS ns NodeType.ATTRIBUTE_NODE with
  | error e => rw [hc] at h; cases h
  | ok m =>
    rw [hc] at h
    cases h
    exact ⟨rfl, rfl, rfl⟩

/-- C4 at work: with the namespace `urn:x` the name `xmlns` is refused, because it is
checked as the prefix `xmlns`, whereas the colon-less name `id` is accepted; with the
XMLNS namespace `xmlns` is accepted and has no prefix. -/
theorem ctor_xmlns_validation_witness :
    ctor checkPrefixAndNamespace "urn:x".data true "xmlns".data
      = .error DOMException.NAMESPACE_ERR ∧
    ctor checkPrefixAndNamespace "urn:x".data true "id".data
      = .ok (AttrNSImpl.mk "id".data "urn:x".data [] "id".data true) ∧
    ctor checkPrefixAndNamespace xmlnsURI true "xmlns".data
      = .ok (AttrNSImpl.mk "xmlns".data xmlnsURI [] "xmlns".data true) ∧
    (AttrNSImpl.mk "xmlns".data xmlnsURI [] "xmlns".data true).hasPrefix = false :=
  ⟨(ctor_xmlns_validation checkPrefixAndNamespace "urn:x".data true).1.trans rfl,
   ((ctor_xmlns_validation checkPrefixAndNamespace "urn:x".data true).2.2
      "id".data (by decide) (by decide)).trans rfl,
   rfl,
   ((ctor_xmlns_validation checkPrefixAndNamespace xmlnsURI true).2.1
      (AttrNSImpl.mk "xmlns".data xmlnsURI [] "xmlns".data true) rfl).2.1⟩

/-- C5: the `hasNamespaceURI()` / `getNamespaceURI()` of a constructed attribute are
the pair the validator returned, kept as two values.  With the validation rules of the
specification, a prefix-less name other than `xmlns` constructed with
`hasNamespaceURI = true` and the empty URI has `hasNamespaceURI() = true` and
`getNamespaceURI() = ""`, and constructed with `hasNamespaceURI = false` it has
`hasNamespaceURI() = false`: absent and empty are told apart. -/
theorem ctor_namespace_pair (check : Validator) (ns : stringT) (hasNS : Bool) (q : stringT) :
    (∀ a : AttrNSImpl, ctor check ns hasNS q = .ok a →
      ∃ (hasPrefix : Bool) (prefix_for_checking : stringT),
        check hasPrefix prefix_for_checking hasNS ns NodeType.ATTRIBUTE_NODE
          = .ok (a.hasNamespaceURI, a.getNamespaceURI)) ∧
    (':' ∉ q → q ≠ construct_from_utf8 "xmlns" →
      ctor checkPrefixAndNamespace [] true q = .ok ⟨q, [], [], q, true⟩ ∧
      (AttrNSImpl.mk q [] [] q true).hasNamespaceURI = true ∧
      (AttrNSImpl.mk q [] [] q true).getNamespaceURI = [] ∧
      ctor checkPrefixAndNamespace ns false q = .ok ⟨q, ns, [], q, false⟩ ∧
      (AttrNSImpl.mk q ns [] q false).hasNamespaceURI = false) := by
  constructor
  · intro a h
    by_cases hq : ':' ∈ q
    · obtain ⟨pre, post, hpre, hs⟩ := split_at_first ':' q hq
      subst hs
      rw [ctor_of_colon check ns hasNS pre post hpre] at h
      cases hc : check true pre hasNS ns NodeType.ATTRIBUTE_NODE with
      | error e => rw [hc] at h; cases h
      | ok m =>
        rw [hc] at h
        cases h
        exact ⟨true, pre, hc⟩
    · by_cases hx : q = construct_from_utf8 "xmlns"
      · subst hx
        rw [ctor_of_xmlns] at h
        cases hc : check true (construct_from_utf8 "xmlns") hasNS ns
            NodeType.ATTRIBUTE_NODE with
        | error e => rw [hc] at h; cases h
        | ok m =>
          rw [hc] at h
          cases h
          exact ⟨true, _, hc⟩
      · rw [ctor_of_plain check ns hasNS q hq hx] at h
        cases hc : check false [] hasNS ns NodeType.ATTRIBUTE_NODE with
        | error e => rw [hc] at h; cases h
        | ok m =>
          rw [hc] at h
          cases h
          exact ⟨false, [], hc⟩
  · intro hq hx
    refine ⟨?_, rfl, rfl, ?_, rfl⟩
    · rw [ctor_of_plain _ _ _ q hq hx]
      rfl
    · rw [ctor_of_plain _ _ _ q hq hx]
      rfl

/-- C5 at work: the name `lang` with an empty namespace URI and with none. -/
theorem ctor_namespace_pair_witness :
    ctor checkPrefixAndNamespace [] true "lang".data
      = .ok (AttrNSImpl.mk "lang".data [] [] "lang".data true) ∧
    ctor checkPrefixAndNamespace [] false "lang".data
      = .ok (AttrNSImpl.mk "lang".data [] [] "lang".data false) ∧
    AttrNSImpl.mk "lang".data [] [] "lang".data true
      ≠ AttrNSImpl.mk "lang".data [] [] "lang".data false :=
  ⟨((ctor_namespace_pair checkPrefixAndNamespace [] false "lang".data).2
      (by decide) (by decide)).1,
   ((ctor_namespace_pair checkPrefixAndNamespace [] false "lang".data).2
      (by decide) (by decide)).2.2.2.1,
   by decide⟩

/-- C10: take an attribute constructed from a qualified name that does not begin with
`:` and run any sequence of `setPrefix` calls on it, whether they return or throw.
Then its name is its local name when its prefix is empty and prefix, `:`, local name
otherwise; `hasPrefix()` is true exactly when the prefix is non-empty; and the local
name is the one it was constructed with.  Moreover `setPrefix("")` on any attribute
that has a namespace URI returns normally whatever the validator is, and resets the
name to the bare local name and the prefix to empty. -/
theorem name_composition (check : Validator) (ns : stringT) (hasNS : Bool) (q : stringT)
    (a : AttrNSImpl) (newPrefixes : List stringT)
    (hq : q.head? ≠ some ':') (h : ctor check ns hasNS q = .ok a) :
    ((a.setPrefixes check newPrefixes).getName =
      if (a.setPrefixes check newPrefixes).getPrefix = []
      then (a.setPrefixes check newPrefixes).getLocalName
      else (a.setPrefixes check newPrefixes).getPrefix ++
        ':' :: (a.setPrefixes check newPrefixes).getLocalName) ∧
    ((a.setPrefixes check newPrefixes).hasPrefix = true ↔
      (a.setPrefixes check newPrefixes).getPrefix ≠ []) ∧
    (a.setPrefixes check newPrefixes).getLocalName = a.getLocalName ∧
    (∀ b : AttrNSImpl, b.hasNamespaceURI = true →
      b.setPrefix check [] =
        (.ok (), ⟨b.getLocalName, b.getNamespaceURI, [], b.getLocalName, true⟩)) := by
  have hc := setPrefixes_keeps_composition check newPrefixes a
    (ctor_composition check ns hasNS q a hq h)
  refine ⟨hc.1, ?_, hc.2, ?_⟩
  · simp [hasPrefix, getPrefix, empty_string]
  · intro b hb
    have hf : b.hasNamespaceURI_ = true := hb
    simp [setPrefix, hf, empty, empty_string, getLocalName, getNamespaceURI]

/-- C10 at work: `a:id` in namespace `urn:x` is asked for the prefixes `b`, the empty
one, `xml` (refused: the namespace is not the XML one) and `c`, and ends as `c:id`. -/
theorem name_composition_witness :
    ctor checkPrefixAndNamespace "urn:x".data true "a:id".data
      = .ok (AttrNSImpl.mk "a:id".data "urn:x".data "a".data "id".data true) ∧
    ((AttrNSImpl.mk "a:id".data "urn:x".data "a".data "id".data true).setPrefixes
        checkPrefixAndNamespace ["b".data, [], "xml".data, "c".data])
      = AttrNSImpl.mk "c:id".data "urn:x".data "c".data "id".data true ∧
    ((AttrNSImpl.mk "a:id".data "urn:x".data "a".data "id".data true).setPrefixes
        checkPrefixAndNamespace ["b".data, [], "xml".data, "c".data]).getLocalName
      = "id".data :=
  ⟨rfl, by decide,
   (name_composition checkPrefixAndNamespace "urn:x".data true "a:id".data
      (AttrNSImpl.mk "a:id".data "urn:x".data "a".data "id".data true)
      ["b".data, [], "xml".data, "c".data] (by decide) rfl).2.2.1⟩

/-- C6: with the validation rules of the specification, binding the prefix `xml`
(constructing from `xml:<local>`, or `setPrefix("xml")`) throws `NAMESPACE_ERR`
whenever the attribute's namespace URI is not the fixed XML namespace URI, and a
refused `setPrefix` leaves the attribute as it was; when the namespace URI is the
fixed XML namespace URI both succeed, and a second `setPrefix("xml")` leaves the
attribute in the state the first one produced. -/
theorem xml_prefix_binding (ns : stringT) (hasNS : Bool) (localName : stringT)
    (a : AttrNSImpl) :
    (¬(hasNS = true ∧ ns = xmlURI) →
      ctor checkPrefixAndNamespace ns hasNS (construct_from_utf8 "xml" ++ ':' :: localName)
        = .error DOMException.NAMESPACE_ERR) ∧
    (¬(a.hasNamespaceURI = true ∧ a.getNamespaceURI = xmlURI) →
      a.setPrefix checkPrefixAndNamespace (construct_from_utf8 "xml")
        = (.error DOMException.NAMESPACE_ERR, a)) ∧
    ctor checkPrefixAndNamespace xmlURI true (construct_from_utf8 "xml" ++ ':' :: localName)
      = .ok ⟨construct_from_utf8 "xml" ++ ':' :: localName, xmlURI,
              construct_from_utf8 "xml", localName, true⟩ ∧
    (a.hasNamespaceURI = true → a.getNamespaceURI = xmlURI →
      a.setPrefix checkPrefixAndNamespace (construct_from_utf8 "xml")
        = (.ok (), ⟨construct_from_utf8 "xml" ++ ':' :: a.getLocalName, xmlURI,
                    construct_from_utf8 "xml", a.getLocalName, true⟩) ∧
      (a.setPrefix checkPrefixAndNamespace (construct_from_utf8 "xml")).2.setPrefix
          checkPrefixAndNamespace (construct_from_utf8 "xml")
        = (.ok (), (a.setPrefix checkPrefixAndNamespace (construct_from_utf8 "xml")).2)) := by
  have hxml : ':' ∉ construct_from_utf8 "xml" := by decide
  have hreject : ∀ u : stringT, u ≠ xmlURI →
      checkPrefixAndNamespace true (construct_from_utf8 "xml") true u
        NodeType.ATTRIBUTE_NODE = .error DOMException.NAMESPACE_ERR := by
    intro u hu
    have h1 : (construct_from_utf8 "xml").isEmpty = false := rfl
    have h2 : (construct_from_utf8 "xml" == construct_from_utf8 "xml") = true := by decide
    have h3 : (u != xmlURI) = true := by simpa using hu
    simp only [checkPrefixAndNamespace, h1, h2, h3]
    rfl
  have habsent : ∀ u : stringT,
      checkPrefixAndNamespace true (construct_from_utf8 "xml") false u
        NodeType.ATTRIBUTE_NODE = .error DOMException.NAMESPACE_ERR := by
    intro u
    rfl
  have haccept : checkPrefixAndNamespace true (construct_from_utf8 "xml") true xmlURI
        NodeType.ATTRIBUTE_NODE = .ok (true, xmlURI) := by
    rfl
  refine ⟨?_, ?_, ?_, ?_⟩
  · intro hno
    rw [ctor_of_colon _ _ _ _ _ hxml]
    cases hasNS with
    | false => rw [habsent]; rfl
    | true =>
      have hu : ns ≠ xmlURI := fun e => hno ⟨rfl, e⟩
      rw [hreject ns hu]
      rfl
  · intro hno
    by_cases hf : a.hasNamespaceURI_ = false
    · simp [setPrefix, hf]
    · have ht : a.hasNamespaceURI_ = true := by simpa using hf
      have hu : a.namespaceURI_ ≠ xmlURI := fun e => hno ⟨ht, e⟩
      have he : empty (construct_from_utf8 "xml") = false := rfl
      simp [setPrefix, ht, he, hreject _ hu]
  · rw [ctor_of_colon _ _ _ _ _ hxml, haccept]
    rfl
  · intro hns huri
    have ht : a.hasNamespaceURI_ = true := hns
    have hu : a.namespaceURI_ = xmlURI := huri
    have he : empty (construct_from_utf8 "xml") = false := rfl
    have hstep : a.setPrefix checkPrefixAndNamespace (construct_from_utf8 "xml")
        = (.ok (), ⟨construct_from_utf8 "xml" ++ ':' :: a.getLocalName, xmlURI,
                    construct_from_utf8 "xml", a.getLocalName, true⟩) := by
      simp [setPrefix, ht, hu, he, haccept, stringPool, append_colon, getLocalName]
    refine ⟨hstep, ?_⟩
    rw [hstep]
    simp [setPrefix, he, haccept, stringPool, append_colon, getLocalName]

/-- C6 at work: `xml:lang` is refused in namespace `urn:x` and accepted in the XML
namespace; `setPrefix("xml")` on `a:lang` is refused in `urn:x` and leaves it alone. -/
theorem xml_prefix_binding_witness :
    ctor checkPrefixAndNamespace "urn:x".data true "xml:lang".data
      = .error DOMException.NAMESPACE_ERR ∧
    (AttrNSImpl.mk "a:lang".data "urn:x".data "a".data "lang".data true).setPrefix
        checkPrefixAndNamespace "xml".data
      = (.error DOMException.NAMESPACE_ERR,
         AttrNSImpl.mk "a:lang".data "urn:x".data "a".data "lang".data true) ∧
    (AttrNSImpl.mk "a:lang".data xmlURI "a".data "lang".data true).setPrefix
        checkPrefixAndNamespace "xml".data
      = (.ok (), AttrNSImpl.mk "xml:lang".data xmlURI "xml".data "lang".data true) :=
  ⟨(xml_prefix_binding "urn:x".data true "lang".data
      (AttrNSImpl.mk "a:lang".data "urn:x".data "a".data "lang".data true)).1 (by decide),
   (xml_prefix_binding "urn:x".data true "lang".data
      (AttrNSImpl.mk "a:lang".data "urn:x".data "a".data "lang".data true)).2.1 (by decide),
   ((xml_prefix_binding "urn:x".data true "lang".data
      (AttrNSImpl.mk "a:lang".data xmlURI "a".data "lang".data true)).2.2.2 rfl rfl).1⟩

end AttrNSImpl

end SimpleDOM

end Arabica

/-! ## The conversion facet `utf16leucs2codecvt` -/

namespace ArabicaInternal

open std.codecvt_base

theorem flatMap_pair_cons (f g : Nat → Nat) (u : Nat) (rest : List Nat) :
    (u :: rest).flatMap (fun v => [f v, g v]) = f u :: g u :: rest.flatMap (fun v => [f v, g v]) := by
  simp [List.flatMap_cons]

/-- The two little-endian bytes of a code unit. -/
theorem ucs2_2_utf16_le (units : List Nat) (to_cap : Nat) (h : 2 * units.length ≤ to_cap) :
    ucs2_2_utf16 false units to_cap =
      ⟨result.ok, units.length, units.flatMap (fun u => [u % 256, u / 256 % 256])⟩ := by
  induction units generalizing to_cap with
  | nil => rfl
  | cons u rest ih =>
    have h2 : ¬ to_cap < 2 := by simp only [List.length_cons] at h; omega
    have hr : 2 * rest.length ≤ to_cap - 2 := by simp only [List.length_cons] at h; omega
    rw [flatMap_pair_cons]
    simp only [ucs2_2_utf16, h2, if_false, ih _ hr, List.length_cons, Bool.false_eq_true,
      List.cons_append, List.nil_append]

/-- Decoding the little-endian byte pairs of 16-bit code units gives the units back. -/
theorem utf16_2_ucs2_le (units : List Nat) (to_cap : Nat)
    (h16 : ∀ u ∈ units, u < 65536) (h : units.length ≤ to_cap) :
    utf16_2_ucs2 false (units.flatMap (fun u => [u % 256, u / 256 % 256])) to_cap =
      ⟨result.ok, 2 * units.length, units⟩ := by
  induction units generalizing to_cap with
  | nil => rfl
  | cons u rest ih =>
    have h0 : to_cap ≠ 0 := by simp only [List.length_cons] at h; omega
    have hr : rest.length ≤ to_cap - 1 := by simp only [List.length_cons] at h; omega
    have hu : u < 65536 := h16 u (List.mem_cons_self _ _)
    have hrest : ∀ v ∈ rest, v < 65536 := fun v hv => h16 v (List.mem_cons_of_mem _ hv)
    have hval : u / 256 % 256 % 256 * 256 + u % 256 % 256 = u := by omega
    have hlen : 2 * rest.length + 2 = 2 * (rest.length + 1) := by omega
    rw [flatMap_pair_cons]
    simp only [utf16_2_ucs2, h0, if_false, ih _ hrest hr, List.length_cons,
      Bool.false_eq_true, hval, hlen]

theorem bind_pair_length (units : List Nat) :
    (units.flatMap (fun u => [u % 256, u / 256 % 256])).length = 2 * units.length := by
  induction units with
  | nil => rfl
  | cons u rest ih =>
    rw [flatMap_pair_cons]
    simp only [List.length_cons, ih]
    omega

end ArabicaInternal

namespace utf16leucs2codecvt

open std std.codecvt_base ArabicaInternal

/-- C7: with the encoder and decoder of the specification, every sequence of 16-bit
code units, surrogate values included, that `do_out` encodes into a buffer with room
for two bytes per unit comes out as its little-endian byte pairs (low byte, then high
byte), and `do_in` decodes those bytes into a buffer with room for the units as the
original sequence, both calls reporting `ok`. -/
theorem do_in_do_out (state : mbstate_t) (units : List Nat) (out_cap in_cap : Nat)
    (h16 : ∀ u ∈ units, u < 65536) (hout : 2 * units.length ≤ out_cap)
    (hin : units.length ≤ in_cap) :
    (do_out state units out_cap).2.res = result.ok ∧
    (do_out state units out_cap).2.from_next = units.length ∧
    (do_out state units out_cap).2.written = units.flatMap (fun u => [u % 256, u / 256]) ∧
    (do_out state units out_cap).2.written.length = 2 * units.length ∧
    (do_in (do_out state units out_cap).1 (do_out state units out_cap).2.written in_cap).2.res
      = result.ok ∧
    (do_in (do_out state units out_cap).1 (do_out state units out_cap).2.written
      in_cap).2.written = units := by
  have henc := ucs2_2_utf16_le units out_cap hout
  have hdec := utf16_2_ucs2_le units in_cap h16 hin
  have hb : units.flatMap (fun u => [u % 256, u / 256 % 256])
      = units.flatMap (fun u => [u % 256, u / 256]) := by
    clear henc hdec hout hin
    induction units with
    | nil => rfl
    | cons u rest ih =>
      have hu : u < 65536 := h16 u (List.mem_cons_self _ _)
      have hm : u / 256 % 256 = u / 256 := by omega
      rw [flatMap_pair_cons, flatMap_pair_cons, hm,
        ih (fun v hv => h16 v (List.mem_cons_of_mem _ hv))]
  simp only [do_out, do_in, henc, hdec]
  refine ⟨trivial, trivial, hb, bind_pair_length units, trivial, trivial⟩

/-- C7 at work: `A`, an unpaired high surrogate, an unpaired low surrogate, `0xFFFF`. -/
theorem do_in_do_out_witness :
    (do_out ⟨none⟩ [0x41, 0xD800, 0xDC00, 0xFFFF] 8).2.written
      = [0x41, 0x00, 0x00, 0xD8, 0x00, 0xDC, 0xFF, 0xFF] ∧
    (do_in ⟨none⟩ [0x41, 0x00, 0x00, 0xD8, 0x00, 0xDC, 0xFF, 0xFF] 4).2.written
      = [0x41, 0xD800, 0xDC00, 0xFFFF] ∧
    (do_in (do_out ⟨none⟩ [0x41, 0xD800, 0xDC00, 0xFFFF] 8).1
        (do_out ⟨none⟩ [0x41, 0xD800, 0xDC00, 0xFFFF] 8).2.written 4).2.written
      = [0x41, 0xD800, 0xDC00, 0xFFFF] :=
  ⟨by decide, by decide,
   (do_in_do_out ⟨none⟩ [0x41, 0xD800, 0xDC00, 0xFFFF] 8 4 (by decide) (by decide)
      (by decide)).2.2.2.2.2⟩

/-- C8, as stated, fails: after a call with the single byte `0x41`, which reports
`partial` and writes nothing, a call supplied only the second byte `0x00` does not
complete a code unit with low byte `0x41`. -/
theorem do_in_second_byte_alone :
    ¬ ((do_in ⟨none⟩ [0x41] 4).2.res = result.partial_ ∧
       (do_in ⟨none⟩ [0x41] 4).2.written = [] ∧
       ∃ u : Nat, (do_in (do_in ⟨none⟩ [0x41] 4).1 [0x00] 4).2.written = [u] ∧
         u % 256 = 0x41) := by
  rintro ⟨-, -, u, hu, -⟩
  have hw : (do_in (do_in ⟨none⟩ [0x41] 4).1 [0x00] 4).2.written = [] := by decide
  rw [hw] at hu
  cases hu

/-- C8, amended: `do_in` with a single trailing byte reports `partial`, writes zero code
units, consumes no byte and hands the codec state back untouched; a following call
supplied only the second byte does the same; a following call supplied the unconsumed
first byte and then the second byte reports `ok`, consumes both and writes exactly one
code unit, whose low byte is the first byte.  `do_unshift` writes nothing and leaves the
state untouched. -/
theorem do_in_single_byte (state : mbstate_t) (b1 b2 to_cap : Nat)
    (hb1 : b1 < 256) (hb2 : b2 < 256) (hcap : 0 < to_cap) :
    do_in state [b1] to_cap = (state, ⟨result.partial_, 0, []⟩) ∧
    do_in (do_in state [b1] to_cap).1 [b2] to_cap = (state, ⟨result.partial_, 0, []⟩) ∧
    do_in (do_in state [b1] to_cap).1 [b1, b2] to_cap
      = (state, ⟨result.ok, 2, [b2 * 256 + b1]⟩) ∧
    (b2 * 256 + b1) % 256 = b1 ∧
    do_unshift state to_cap = (state, result.noconv, []) := by
  have h0 : to_cap ≠ 0 := by omega
  have hm1 : b1 % 256 = b1 := Nat.mod_eq_of_lt hb1
  have hm2 : b2 % 256 = b2 := Nat.mod_eq_of_lt hb2
  refine ⟨rfl, rfl, ?_, by omega, rfl⟩
  simp [do_in, utf16_2_ucs2, h0, hm1, hm2]

/-- C8 amended, at work: the bytes `0x41`, `0x00`. -/
theorem do_in_single_byte_witness :
    do_in ⟨none⟩ [0x41] 4 = (⟨none⟩, ⟨result.partial_, 0, []⟩) ∧
    do_in ⟨none⟩ [0x41, 0x00] 4 = (⟨none⟩, ⟨result.ok, 2, [0x41]⟩) :=
  ⟨(do_in_single_byte ⟨none⟩ 0x41 0x00 4 (by decide) (by decide) (by decide)).1,
   (do_in_single_byte ⟨none⟩ 0x41 0x00 4 (by decide) (by decide) (by decide)).2.2.1⟩

/-- C9, as stated, fails: with six bytes left in the input and `max = 4`, `do_length`
returns 6, not `4 / 2`; with no byte left it returns 2, so the result depends on how
many bytes remain. -/
theorem do_length_not_half :
    ¬ (do_length ⟨none⟩ [0x41, 0x00, 0x42, 0x00, 0x43, 0x00] 4 = ((4 / 2 : Nat) : Int)) ∧
    do_length ⟨none⟩ [0x41, 0x00, 0x42, 0x00, 0x43, 0x00] 4 = 6 ∧
    do_length ⟨none⟩ [] 4 = 2 := by
  decide

/-- C9, amended: for an input range and a limit that fit an `int`, `do_length` returns
the larger of the number of bytes in `[from, end)` and `max / 2`; it equals `max / 2`
exactly when no more than `max / 2` bytes remain in the input. -/
theorem do_length_eq (state : mbstate_t) (from_ : List Nat) (max_ : Nat)
    (hlen : from_.length < 2 ^ 31) (hmax : max_ / 2 < 2 ^ 31) :
    do_length state from_ max_ = max (from_.length : Int) ((max_ / 2 : Nat) : Int) ∧
    (do_length state from_ max_ = ((max_ / 2 : Nat) : Int) ↔ from_.length ≤ max_ / 2) := by
  have hid : ∀ n : Nat, n < 2 ^ 31 → toInt (n : Int) = (n : Int) := by
    intro n hn
    unfold toInt
    norm_num at hn ⊢
    omega
  unfold do_length
  rw [hid _ hlen, hid _ hmax]
  refine ⟨rfl, ?_⟩
  constructor
  · intro h
    have := le_max_left (from_.length : Int) ((max_ / 2 : Nat) : Int)
    rw [h] at this
    exact_mod_cast this
  · intro h
    exact max_eq_right (by exact_mod_cast h)

/-- C9 amended, at work: six bytes with `max = 4`, and two bytes with `max = 4`. -/
theorem do_length_eq_witness :
    do_length ⟨none⟩ [0x41, 0x00, 0x42, 0x00, 0x43, 0x00] 4 = max (6 : Int) 2 ∧
    (do_length ⟨none⟩ [0x41, 0x00] 4 = ((4 / 2 : Nat) : Int) ↔ [0x41, 0x00].length ≤ 4 / 2) :=
  ⟨(do_length_eq ⟨none⟩ [0x41, 0x00, 0x42, 0x00, 0x43, 0x00] 4 (by decide) (by decide)).1,
   (do_length_eq ⟨none⟩ [0x41, 0x00] 4 (by decide) (by decide)).2⟩

end utf16leucs2codecvt
